import Mathlib

/-!
Verification of the audio effect-bundle session wrapper
(`media/libeffects/lvm/wrapper/Aidl/BundleContext.cpp`).

The development shallowly embeds the wrapper: the mutable `BundleContext`
object becomes an explicit state record, the closed-source DSP engine becomes
an explicit `Engine` record whose get/set/process entry points may fail
(success of each entry point is modelled by a Boolean flag on the record),
and every member function becomes a pure state-passing function returning the
result code together with the updated context and engine.

Machine integers are modelled by `Nat`/`Int` with explicit `% 2 ^ 32` where
the source relies on 32-bit wrap-around; all intermediate signed values in the
decibel conversion fit comfortably in 16 bits, which is checked in the proofs
rather than assumed.  Real-valued (`float`/`double`) arithmetic in the level
limiter is modelled over `ℚ`; the square root from `math.h` and the constant
tables that live in the missing header `BundleTypes.h` are supplied as
parameters in `LvmTables`.  Every theorem that touches this arithmetic only
evaluates it at points where the floating-point computation is exact (all
band gains zero), so the `ℚ` model agrees with the source there.
-/

/-- Effect slots of the bundle.  The enum lives in `BundleTypes.h` (not part
of this tree); the spec lists EQUALIZER, BASS_BOOST, VIRTUALIZER, VOLUME.
Only the EQUALIZER arm has real handling in the source. -/
inductive BundleEffectType where
  | EQUALIZER
  | BASS_BOOST
  | VIRTUALIZER
  | VOLUME
deriving DecidableEq, Repr

/-- Bit index used for the per-effect-type bit masks (`1 << int(type)`). -/
def typeBit : BundleEffectType → Nat
  | .EQUALIZER => 0
  | .BASS_BOOST => 1
  | .VIRTUALIZER => 2
  | .VOLUME => 3

/-- Result codes returned by the control operations.  The enum is declared in
`EffectTypes.h`, outside this tree; the constructors used by the source file
are `SUCCESS`, `ERROR_ILLEGAL_PARAMETER` and `ERROR_EFFECT_LIB_ERROR`.
Modelled from the spec: the spec error taxonomy in addition names a distinct
illegal-state error, included here as `errorIllegalState` so that claims
phrased in terms of it can be stated. -/
inductive RetCode where
  | success
  | errorIllegalParameter
  | errorIllegalState
  | errorNullPointer
  | errorEffectLibError
deriving DecidableEq, Repr

/-- Binder-level status codes used on the buffer-processing path. -/
inductive BinderStatus where
  | EX_NULL_POINTER
  | EX_ILLEGAL_STATE
  | EX_UNSUPPORTED_OPERATION
  | STATUS_OK
deriving DecidableEq, Repr

/-- Number of equalizer bands, `lvm::MAX_NUM_BANDS`.  The constant is defined
in the missing header `BundleTypes.h`; the spec fixes it as "N (fixed,
e.g. 5)". -/
def MAX_NUM_BANDS : Nat := 5

/-- Preset marker for custom band levels, `lvm::PRESET_CUSTOM`.  Modelled
from the spec: any direct band-level edit marks the session as "custom"; the
numeric value is irrelevant to every claim. -/
def PRESET_CUSTOM : Int := -1

/-- One `LVM_EQNB_BandDef_t` entry of the engine control parameters. -/
structure BandDef where
  frequency : Int
  qFactor : Int
  gain : Int
deriving DecidableEq, Repr

/-- The slice of `LVM_ControlParams_t` that the wrapper reads or writes. -/
structure EngParams where
  eqOn : Bool
  vcEffectLevel : Int
  vcBalance : Int
  bands : Fin MAX_NUM_BANDS → BandDef

/-- Constant tables from the missing header `BundleTypes.h` together with the
`math.h` square root, supplied as parameters of the embedding.  Modelled from
the spec: per-band energy coefficients, cross coefficients, soft presets and
band frequency/Q tables are fixed data; `sq` models `sqrt` and every theorem
using it carries the needed exact-value hypothesis (such as `sq 0 = 0`)
explicitly. -/
structure LvmTables where
  sq : ℚ → ℚ
  bandCoeff : Fin MAX_NUM_BANDS → ℚ
  crossCoeff : Fin 4 → ℚ
  softPresets : Nat → Fin MAX_NUM_BANDS → Int
  maxNumPresets : Nat
  presetFreq : Fin MAX_NUM_BANDS → Int
  presetQ : Fin MAX_NUM_BANDS → Int

/-- The DSP engine instance.  `params` mirrors the engine-held control
parameters; the four flags say whether the corresponding engine entry point
succeeds; `noSmoothingCalls` counts invocations of the no-smoothing volume
call (observable needed by the first-volume claim). -/
structure Engine where
  params : EngParams
  getOk : Bool
  setOk : Bool
  procOk : Bool
  volNoSmoothOk : Bool
  noSmoothingCalls : Nat

def LVM_GetControlParameters (e : Engine) : Option EngParams :=
  if e.getOk then some e.params else none

def LVM_SetControlParameters (e : Engine) (p : EngParams) : Option Engine :=
  if e.setOk then some { e with params := p } else none

def LVM_SetVolumeNoSmoothing (e : Engine) (p : EngParams) : Option Engine :=
  if e.volNoSmoothOk then
    some { e with params := p, noSmoothingCalls := e.noSmoothingCalls + 1 }
  else none

/-- The mutable state of `BundleContext`.  Field names follow the source.
`mInputFrameCount`, `mOutputFrameCount` and `mFrameSizeBytes` stand for the
session configuration reached through `getCommon()`/`getInputFrameSize()`,
whose definitions live in the base class outside this tree (modelled from the
spec: mismatched frame counts or a zero frame size are rejected). -/
structure BundleContext where
  mType : BundleEffectType
  mEnabled : Bool
  mSamplesPerSecond : Nat
  mSamplesToExitCountEq : Int
  mEffectInDrain : Nat
  mEffectProcessCalled : Nat
  mNumberEffectsEnabled : Int
  mNumberEffectsCalled : Int
  mBandGaindB : Fin MAX_NUM_BANDS → Int
  mCurPresetIdx : Int
  mLevelSaved : Int
  mFirstVolume : Bool
  mVolumeStereo : Nat × Nat
  mInputFrameCount : Int
  mOutputFrameCount : Int
  mFrameSizeBytes : Nat

/-- Clearing one bit of a mask, `x &= ~(1 << b)`, expressed on `Nat`. -/
def clearBit (x b : Nat) : Nat := if x.testBit b then x - 2 ^ b else x

/-! ## GainMath: `LVC_ToDB_s32Tos16` and `VolToDb` -/

/-- The leading-bit scan of `LVC_ToDB_s32Tos16`: starting from `shift`, while
the top bit (bit 31) of `rem` is clear, shift `rem` left by one and count;
the source loop bound `Shift < 32` is the fuel argument.  Returns the final
`(Shift, Remainder)` pair. -/
def clzScan : Nat → Nat → Nat → Nat × Nat
  | 0, shift, rem => (shift, rem)
  | fuel + 1, shift, rem =>
    if rem &&& 0x80000000 ≠ 0 then (shift, rem)
    else clzScan fuel (shift + 1) ((rem <<< 1) % 4294967296)

/-- Fixed-point linear magnitude to Q11.4 decibel conversion
(`BundleContext::LVC_ToDB_s32Tos16`).  The `LVM_INT32` argument is
reinterpreted as an unsigned 32-bit value by the source; the model takes that
unsigned value directly.  All intermediate `LVM_INT16` casts are lossless on
the reachable value range (proved, not assumed), so the arithmetic is carried
out on `Int`. -/
def LVC_ToDB_s32Tos16 (linFix : Nat) : Int :=
  let scan := clzScan 32 0 (linFix % 4294967296)
  let shift := scan.1
  let remainder := scan.2
  let dbFix : Int := -96 * (shift : Int)
  let smallRemainder : Nat := (remainder &&& 0x7fffffff) >>> 24
  let dbFix := dbFix + (smallRemainder : Int)
  let sqSmall := smallRemainder * smallRemainder
  let dbFix := dbFix - ((sqSmall >>> 9 : Nat) : Int)
  dbFix - 5

/-- Volume to decibel conversion (`BundleContext::VolToDb`).  The `uint32`
shift `vol << 7` wraps modulo `2 ^ 32`; `(dB + 8) >> 4` is an arithmetic
right shift of a value far inside the 16-bit range, i.e. floor division by
16. -/
def VolToDb (vol : Nat) : Int :=
  let dB := LVC_ToDB_s32Tos16 ((vol <<< 7) % 4294967296)
  let dB := (dB + 8).fdiv 16
  if dB < -96 then -96 else dB

/-! ## ParameterStore: band levels, presets, stereo volume -/

/-- One `Equalizer::BandLevel` request entry. -/
structure BandLevel where
  index : Int
  levelMb : Int
deriving DecidableEq, Repr

/-- Read back the mirrored band gains
(`BundleContext::getEqualizerBandLevels`). -/
def getEqualizerBandLevels (st : BundleContext) : List BandLevel :=
  (List.finRange MAX_NUM_BANDS).map (fun i => ⟨(i.val : Int), st.mBandGaindB i⟩)

/-- Index-range check (`BundleContext::isBandLevelIndexInRange`): the source
takes `minmax_element` over the indices and checks `min ≥ 0 && max < bands`.
On the empty list the source dereferences the end iterator (undefined
behaviour); both callers reject empty lists beforehand, and the model never
reaches that arm with `[]`. -/
def isBandLevelIndexInRange (bandLevels : List BandLevel) : Bool :=
  match bandLevels with
  | [] => true
  | e :: rest =>
    let mn := rest.foldl (fun a b => min a b.index) e.index
    let mx := rest.foldl (fun a b => max a b.index) e.index
    decide (0 ≤ mn) && decide (mx < (MAX_NUM_BANDS : Int))

/-- Contents of the local `tempLevel` array after the write loop
`for (it : bandLevels) tempLevel[it.index] = it.levelMb`, starting from the
indeterminate initial contents `junk`. -/
def tempLevelOf (junk : Fin MAX_NUM_BANDS → Int) (bandLevels : List BandLevel) :
    Fin MAX_NUM_BANDS → Int :=
  bandLevels.foldl
    (fun acc e i => if (i.val : Int) = e.index then e.levelMb else acc i) junk

/-- Core band update (`BundleContext::updateControlParameter`).  The source
declares `std::array<int, bands> tempLevel` without initialising it and only
writes the entries named by the request; `junk` supplies the indeterminate
initial contents of that array, so the claims about omitted bands can be
stated for every possible initial content. -/
def updateControlParameter (tbl : LvmTables) (junk : Fin MAX_NUM_BANDS → Int)
    (st : BundleContext) (eng : Engine) (bandLevels : List BandLevel) :
    RetCode × BundleContext × Engine :=
  if !isBandLevelIndexInRange bandLevels then (.errorIllegalParameter, st, eng)
  else
    let tempLevel := tempLevelOf junk bandLevels
    match LVM_GetControlParameters eng with
    | none => (.errorEffectLibError, st, eng)
    | some params =>
      let params :=
        { params with bands := fun i => ⟨tbl.presetFreq i, tbl.presetQ i, tempLevel i⟩ }
      match LVM_SetControlParameters eng params with
      | none => (.errorEffectLibError, st, eng)
      | some eng1 => (.success, { st with mBandGaindB := tempLevel }, eng1)

/-- Band-level request handler (`BundleContext::setEqualizerBandLevels`). -/
def setEqualizerBandLevels (tbl : LvmTables) (junk : Fin MAX_NUM_BANDS → Int)
    (st : BundleContext) (eng : Engine) (bandLevels : List BandLevel) :
    RetCode × BundleContext × Engine :=
  if bandLevels.length > MAX_NUM_BANDS || bandLevels.isEmpty then
    (.errorIllegalParameter, st, eng)
  else
    let r := updateControlParameter tbl junk st eng bandLevels
    if r.1 = .success then
      (r.1, { r.2.1 with mCurPresetIdx := PRESET_CUSTOM }, r.2.2)
    else r

/-- Preset selection (`BundleContext::setEqualizerPreset`).  The index is a
`std::size_t`, so the source check `presetIdx < 0` can never fire and only
the upper bound remains. -/
def setEqualizerPreset (tbl : LvmTables) (junk : Fin MAX_NUM_BANDS → Int)
    (st : BundleContext) (eng : Engine) (presetIdx : Nat) :
    RetCode × BundleContext × Engine :=
  if presetIdx ≥ tbl.maxNumPresets then (.errorIllegalParameter, st, eng)
  else
    let bandLevels : List BandLevel :=
      (List.finRange MAX_NUM_BANDS).map
        (fun i => ⟨(i.val : Int), tbl.softPresets presetIdx i⟩)
    let r := updateControlParameter tbl junk st eng bandLevels
    if r.1 = .success then
      (r.1, { r.2.1 with mCurPresetIdx := (presetIdx : Int) }, r.2.2)
    else r

/-- Stereo volume handler (`BundleContext::setVolumeStereo`).  The AIDL
volume fields are converted through `VolToDb`; only the balance is pushed to
the engine, the level application itself being left to `limitLevel` (noted
as an incomplete feature in the source). -/
def setVolumeStereo (st : BundleContext) (eng : Engine) (left right : Nat) :
    RetCode × BundleContext × Engine :=
  let leftdB := VolToDb left
  let rightdB := VolToDb right
  let pandB := rightdB - leftdB
  match LVM_GetControlParameters eng with
  | none => (.errorEffectLibError, st, eng)
  | some params =>
    let params := { params with vcBalance := pandB }
    match LVM_SetControlParameters eng params with
    | none => (.errorEffectLibError, st, eng)
    | some eng1 => (.success, { st with mVolumeStereo := (left, right) }, eng1)

/-! ## LevelEstimator: `limitLevel` -/

/-- Truncating `(int)` cast of the real-valued estimate: toward zero. -/
def intTrunc (q : ℚ) : Int := if 0 ≤ q then ⌊q⌋ else ⌈q⌉

/-- Per-band positive energy contributions (`limitLevel`, first loop). -/
def energyContributionOf (tbl : LvmTables) (gains : Fin MAX_NUM_BANDS → Int) : ℚ :=
  (List.finRange MAX_NUM_BANDS).foldl
    (fun acc i =>
      let bandFactor : ℚ := (gains i : ℚ) / 15
      let bandCoefficient := tbl.bandCoeff i
      let bandEnergy := bandFactor * bandCoefficient * bandCoefficient
      if 0 < bandEnergy then acc + bandEnergy else acc) 0

/-- Adjacent-band cross terms (`limitLevel`, second loop): returns the
accumulated `(energyCross, bandFactorSum)` pair. -/
def crossEnergyOf (tbl : LvmTables) (gains : Fin MAX_NUM_BANDS → Int) : ℚ × ℚ :=
  (List.finRange 4).foldl
    (fun acc i =>
      let bandFactor1 : ℚ := (gains i.castSucc : ℚ) / 15
      let bandFactor2 : ℚ := (gains i.succ : ℚ) / 15
      if 0 < bandFactor1 ∧ 0 < bandFactor2 then
        let crossEnergy := bandFactor1 * bandFactor2 * tbl.crossCoeff i
        let acc := (acc.1, acc.2 + bandFactor1 * bandFactor2)
        if 0 < crossEnergy then (acc.1 + crossEnergy, acc.2) else acc
      else acc) (0, 0)

/-- Gain-correction computation of `BundleContext::limitLevel` (lines
146-194): energy estimate, ceiling-like round-off, and the headroom test
against the saved master level.  `energyBassBoost` is the source constant
zero. -/
def computeGainCorrection (tbl : LvmTables) (eqEnabled : Bool)
    (gains : Fin MAX_NUM_BANDS → Int) (levelSaved : Int) : Int :=
  let energyContribution := if eqEnabled then energyContributionOf tbl gains else 0
  let cross := if eqEnabled then crossEnergyOf tbl gains else (0, 0)
  let energyCross := cross.1
  let bandFactorSum := cross.2 - 1
  let crossCorrection : ℚ :=
    if eqEnabled ∧ 0 < bandFactorSum then bandFactorSum * (7 / 10) else 0
  let energyBassBoost : ℚ := 0
  let totalEnergyEstimation :=
    tbl.sq (energyContribution + energyCross + energyBassBoost) - crossCorrection
  let maxLevelRound := intTrunc (totalEnergyEstimation + 99 / 100)
  if 0 < maxLevelRound + levelSaved then maxLevelRound + levelSaved else 0

/-- Level limiter (`BundleContext::limitLevel`): reads the engine parameters,
computes the gain correction, pushes the clamped volume-control level, and on
the first volume application additionally performs the no-smoothing volume
call before clearing `mFirstVolume`. -/
def limitLevel (tbl : LvmTables) (st : BundleContext) (eng : Engine) :
    RetCode × BundleContext × Engine :=
  match LVM_GetControlParameters eng with
  | none => (.errorEffectLibError, st, eng)
  | some params =>
    let eqEnabled := params.eqOn
    let gainCorrection := computeGainCorrection tbl eqEnabled st.mBandGaindB st.mLevelSaved
    let lvl := st.mLevelSaved - gainCorrection
    let lvl := if lvl < -96 then -96 else lvl
    let params := { params with vcEffectLevel := lvl }
    match LVM_SetControlParameters eng params with
    | none => (.errorEffectLibError, st, eng)
    | some eng1 =>
      if st.mFirstVolume then
        match LVM_SetVolumeNoSmoothing eng1 params with
        | none => (.errorEffectLibError, st, eng1)
        | some eng2 => (.success, { st with mFirstVolume := false }, eng2)
      else (.success, st, eng1)

/-! ## EffectSessionState: enable, disable, process -/

/-- Operating-mode-on push (`BundleContext::enableOperatingMode`). -/
def enableOperatingMode (tbl : LvmTables) (st : BundleContext) (eng : Engine) :
    RetCode × BundleContext × Engine :=
  match LVM_GetControlParameters eng with
  | none => (.errorEffectLibError, st, eng)
  | some params =>
    let params :=
      match st.mType with
      | .EQUALIZER => { params with eqOn := true }
      | _ => params
    match LVM_SetControlParameters eng params with
    | none => (.errorEffectLibError, st, eng)
    | some eng1 => limitLevel tbl st eng1

/-- Session enable (`BundleContext::enable`).  The drain budget
`mSamplesPerSecond * 0.1` is written `mSamplesPerSecond / 10`; the two agree
at every standard sample rate (all are divisible by ten) and in particular at
every rate used in a claim. -/
def enable (tbl : LvmTables) (st : BundleContext) (eng : Engine) :
    RetCode × BundleContext × Engine :=
  if st.mEnabled then (.errorIllegalParameter, st, eng)
  else
    let st :=
      match st.mType with
      | .EQUALIZER =>
        let st :=
          if st.mSamplesToExitCountEq ≤ 0 then
            { st with mNumberEffectsEnabled := st.mNumberEffectsEnabled + 1 }
          else st
        { st with
          mSamplesToExitCountEq := ((st.mSamplesPerSecond / 10 : Nat) : Int),
          mEffectInDrain := clearBit st.mEffectInDrain (typeBit .EQUALIZER) }
      | _ => st
    let st := { st with mEnabled := true }
    enableOperatingMode tbl st eng

/-- Operating-mode-off push (`BundleContext::disableOperatingMode`). -/
def disableOperatingMode (tbl : LvmTables) (st : BundleContext) (eng : Engine) :
    RetCode × BundleContext × Engine :=
  match LVM_GetControlParameters eng with
  | none => (.errorEffectLibError, st, eng)
  | some params =>
    let params :=
      match st.mType with
      | .EQUALIZER => { params with eqOn := false }
      | _ => params
    match LVM_SetControlParameters eng params with
    | none => (.errorEffectLibError, st, eng)
    | some eng1 => limitLevel tbl { st with mEnabled := false } eng1

/-- Session disable (`BundleContext::disable`). -/
def disable (tbl : LvmTables) (st : BundleContext) (eng : Engine) :
    RetCode × BundleContext × Engine :=
  if !st.mEnabled then (.errorIllegalParameter, st, eng)
  else
    let st :=
      match st.mType with
      | .EQUALIZER =>
        { st with mEffectInDrain := st.mEffectInDrain ||| (1 <<< typeBit .EQUALIZER) }
      | _ => st
    let st := { st with mEnabled := false }
    disableOperatingMode tbl st eng

/-- Result of one `lvmProcess` call: binder status with consumed/produced
frame counts, the updated state, and two observables of the call: the final
value of the source local `isDataAvailable`, and whether the engine process
entry (`LVM_Process`) was invoked (as opposed to the identity-copy
pass-through branch). -/
structure ProcOut where
  status : BinderStatus
  consumed : Int
  produced : Int
  ctx : BundleContext
  eng : Engine
  dataAvailable : Bool
  engineInvoked : Bool

/-- Buffer processing (`BundleContext::lvmProcess`).  Buffer contents are not
modelled (no claim concerns sample values); nullness of the two pointers is
passed explicitly.  The repair branch condition
`(mEffectInDrain & ~mEffectProcessCalled) & (1 << EQUALIZER) != 0` is written
as the equivalent pair of bit tests. -/
def lvmProcess (inNull outNull : Bool) (samples : Int)
    (st : BundleContext) (eng : Engine) : ProcOut :=
  if inNull then ⟨.EX_NULL_POINTER, 0, 0, st, eng, true, false⟩
  else if outNull then ⟨.EX_NULL_POINTER, 0, 0, st, eng, true, false⟩
  else if st.mInputFrameCount ≠ st.mOutputFrameCount then
    ⟨.EX_ILLEGAL_STATE, 0, 0, st, eng, true, false⟩
  else if st.mFrameSizeBytes = 0 then ⟨.EX_ILLEGAL_STATE, 0, 0, st, eng, true, false⟩
  else
    let st :=
      if st.mEffectProcessCalled.testBit (typeBit st.mType) then
        if st.mEffectInDrain.testBit (typeBit .EQUALIZER) &&
            !st.mEffectProcessCalled.testBit (typeBit .EQUALIZER) then
          { st with
            mSamplesToExitCountEq := 0,
            mNumberEffectsEnabled := st.mNumberEffectsEnabled - 1,
            mEffectInDrain := clearBit st.mEffectInDrain (typeBit .EQUALIZER) }
        else st
      else st
    let st :=
      { st with mEffectProcessCalled := st.mEffectProcessCalled ||| (1 <<< typeBit st.mType) }
    let stAvail :=
      if st.mEnabled then (st, true)
      else
        match st.mType with
        | .EQUALIZER =>
          let st :=
            if 0 < st.mSamplesToExitCountEq then
              { st with mSamplesToExitCountEq := st.mSamplesToExitCountEq - samples }
            else st
          if st.mSamplesToExitCountEq ≤ 0 then
            let st :=
              if st.mEffectInDrain.testBit (typeBit .EQUALIZER) then
                { st with
                  mNumberEffectsEnabled := st.mNumberEffectsEnabled - 1,
                  mEffectInDrain := clearBit st.mEffectInDrain (typeBit .EQUALIZER) }
              else st
            (st, false)
          else (st, true)
        | _ => (st, true)
    let st := stAvail.1
    let isDataAvailable := stAvail.2
    let st :=
      if isDataAvailable then
        { st with mNumberEffectsCalled := st.mNumberEffectsCalled + 1 }
      else st
    if st.mNumberEffectsEnabled ≤ st.mNumberEffectsCalled then
      let st := { st with mEffectProcessCalled := 0, mNumberEffectsCalled := 0 }
      if eng.procOk then ⟨.STATUS_OK, samples, samples, st, eng, isDataAvailable, true⟩
      else ⟨.EX_UNSUPPORTED_OPERATION, 0, 0, st, eng, isDataAvailable, true⟩
    else ⟨.STATUS_OK, samples, samples, st, eng, isDataAvailable, false⟩

/-- Fold a list of per-call sample counts through `lvmProcess` with non-null
buffers, collecting each call's `(dataAvailable, engineInvoked)` pair. -/
def runProcs (ns : List Int) (st : BundleContext) (eng : Engine) :
    BundleContext × Engine × List (Bool × Bool) :=
  match ns with
  | [] => (st, eng, [])
  | n :: t =>
    let o := lvmProcess false false n st eng
    let r := runProcs t o.ctx o.eng
    (r.1, r.2.1, (o.dataAvailable, o.engineInvoked) :: r.2.2)

/-- Inclusive prefix sums of a list of sample counts. -/
def cumSums : List Int → List Int
  | [] => []
  | n :: t => n :: (cumSums t).map (fun s => n + s)

/-- Iterated application of `limitLevel`, keeping the state and engine of
each successful pass (used to express the once-per-session property of the
no-smoothing volume call). -/
def iterLimitLevel (tbl : LvmTables) : Nat → BundleContext → Engine → BundleContext × Engine
  | 0, st, eng => (st, eng)
  | n + 1, st, eng =>
    let r := limitLevel tbl st eng
    iterLimitLevel tbl n r.2.1 r.2.2

/-! ## Concrete instances for witnesses and counterexamples -/

/-- Concrete table instance: the square root model is identically zero (it is
only ever applied to zero in the closed statements below, where the real
square root is also zero) and all coefficient tables are zero. -/
def sampleTables : LvmTables :=
  { sq := fun _ => 0, bandCoeff := fun _ => 0, crossCoeff := fun _ => 0,
    softPresets := fun _ _ => 0, maxNumPresets := 10,
    presetFreq := fun _ => 0, presetQ := fun _ => 0 }

/-- Concrete engine whose every entry point succeeds. -/
def okEngine : Engine :=
  { params := { eqOn := false, vcEffectLevel := 0, vcBalance := 0,
                bands := fun _ => ⟨0, 0, 0⟩ },
    getOk := true, setOk := true, procOk := true, volNoSmoothOk := true,
    noSmoothingCalls := 0 }

/-- Concrete freshly initialised EQUALIZER session at 44100 Hz. -/
def freshEqContext : BundleContext :=
  { mType := .EQUALIZER, mEnabled := false, mSamplesPerSecond := 44100,
    mSamplesToExitCountEq := 0, mEffectInDrain := 0, mEffectProcessCalled := 0,
    mNumberEffectsEnabled := 0, mNumberEffectsCalled := 0,
    mBandGaindB := fun _ => 0, mCurPresetIdx := 0, mLevelSaved := 0,
    mFirstVolume := true, mVolumeStereo := (0, 0),
    mInputFrameCount := 128, mOutputFrameCount := 128, mFrameSizeBytes := 8 }

/-! ## Session predicates used by the drain theorems -/

/-- Frame configuration accepted by `lvmProcess`. -/
def FramesOk (st : BundleContext) : Prop :=
  st.mInputFrameCount = st.mOutputFrameCount ∧ st.mFrameSizeBytes ≠ 0

/-- All four engine entry points succeed. -/
def EngineOk (e : Engine) : Prop :=
  e.getOk = true ∧ e.setOk = true ∧ e.procOk = true ∧ e.volNoSmoothOk = true

/-- Freshly initialised single-effect EQUALIZER session: disabled, no drain
pending, all cycle bookkeeping clear. -/
def FreshInv (st : BundleContext) : Prop :=
  st.mType = .EQUALIZER ∧ st.mEnabled = false ∧ FramesOk st ∧
  st.mEffectProcessCalled = 0 ∧ st.mNumberEffectsCalled = 0 ∧
  st.mNumberEffectsEnabled = 0 ∧ st.mSamplesToExitCountEq ≤ 0 ∧
  st.mEffectInDrain = 0

/-- Enabled single-effect EQUALIZER session between processing cycles. -/
def EnabledInv (st : BundleContext) : Prop :=
  st.mType = .EQUALIZER ∧ st.mEnabled = true ∧ FramesOk st ∧
  st.mEffectProcessCalled = 0 ∧ st.mNumberEffectsCalled = 0 ∧
  st.mNumberEffectsEnabled = 1

/-- Disabled single-effect EQUALIZER session after `c` samples have been
submitted since `disable` against drain budget `B`: either the drain tail is
still running (`c < B`) or it has completed and the enabled-effect count has
been given back. -/
def DrainInv (B c : Int) (st : BundleContext) : Prop :=
  st.mType = .EQUALIZER ∧ st.mEnabled = false ∧ FramesOk st ∧
  st.mEffectProcessCalled = 0 ∧ st.mNumberEffectsCalled = 0 ∧
  ((c < B ∧ st.mSamplesToExitCountEq = B - c ∧ st.mEffectInDrain = 1 ∧
      st.mNumberEffectsEnabled = 1) ∨
   (B ≤ c ∧ st.mSamplesToExitCountEq ≤ 0 ∧ st.mEffectInDrain = 0 ∧
      st.mNumberEffectsEnabled = 0))

/-! ## Helper lemmas: band-level folds and the range check -/

lemma foldl_min_le_init (l : List BandLevel) (a : Int) :
    l.foldl (fun m x => min m x.index) a ≤ a := by
  induction l generalizing a with
  | nil => simp
  | cons e t ih =>
    simp only [List.foldl_cons]
    exact le_trans (ih (min a e.index)) (min_le_left _ _)

lemma foldl_min_le_mem (l : List BandLevel) (a : Int) (e : BandLevel)
    (he : e ∈ l) : l.foldl (fun m x => min m x.index) a ≤ e.index := by
  induction l generalizing a with
  | nil => simp at he
  | cons b t ih =>
    simp only [List.foldl_cons]
    rcases List.mem_cons.mp he with h | h
    · subst h
      exact le_trans (foldl_min_le_init t _) (min_le_right _ _)
    · exact ih _ h

lemma le_foldl_min (l : List BandLevel) (a c : Int) (ha : c ≤ a)
    (h : ∀ e ∈ l, c ≤ e.index) : c ≤ l.foldl (fun m x => min m x.index) a := by
  induction l generalizing a with
  | nil => simpa
  | cons b t ih =>
    simp only [List.foldl_cons]
    refine ih _ (le_min ha (h b (by simp))) fun e he => h e (by simp [he])

lemma init_le_foldl_max (l : List BandLevel) (a : Int) :
    a ≤ l.foldl (fun m x => max m x.index) a := by
  induction l generalizing a with
  | nil => simp
  | cons e t ih =>
    simp only [List.foldl_cons]
    exact le_trans (le_max_left _ _) (ih (max a e.index))

lemma mem_le_foldl_max (l : List BandLevel) (a : Int) (e : BandLevel)
    (he : e ∈ l) : e.index ≤ l.foldl (fun m x => max m x.index) a := by
  induction l generalizing a with
  | nil => simp at he
  | cons b t ih =>
    simp only [List.foldl_cons]
    rcases List.mem_cons.mp he with h | h
    · subst h
      exact le_trans (le_max_right _ _) (init_le_foldl_max t _)
    · exact ih _ h

lemma foldl_max_le (l : List BandLevel) (a c : Int) (ha : a ≤ c)
    (h : ∀ e ∈ l, e.index ≤ c) : l.foldl (fun m x => max m x.index) a ≤ c := by
  induction l generalizing a with
  | nil => simpa
  | cons b t ih =>
    simp only [List.foldl_cons]
    refine ih _ (max_le ha (h b (by simp))) fun e he => h e (by simp [he])

/-- The source range check accepts exactly the in-range nonempty requests. -/
lemma isBandLevelIndexInRange_true (l : List BandLevel) (hne : l ≠ [])
    (h : ∀ e ∈ l, 0 ≤ e.index ∧ e.index < (MAX_NUM_BANDS : Int)) :
    isBandLevelIndexInRange l = true := by
  match l with
  | [] => exact absurd rfl hne
  | e :: t =>
    simp only [isBandLevelIndexInRange, Bool.and_eq_true, decide_eq_true_eq]
    constructor
    · exact le_foldl_min t e.index 0 (h e (by simp)).1
        fun x hx => (h x (by simp [hx])).1
    · have := foldl_max_le t e.index ((MAX_NUM_BANDS : Int) - 1)
        (by have := (h e (by simp)).2; omega)
        (fun x hx => by have := (h x (by simp [hx])).2; omega)
      omega

/-- The source range check rejects every request with an out-of-range index. -/
lemma isBandLevelIndexInRange_false (l : List BandLevel) (e : BandLevel)
    (he : e ∈ l) (hbad : e.index < 0 ∨ (MAX_NUM_BANDS : Int) ≤ e.index) :
    isBandLevelIndexInRange l = false := by
  match l with
  | [] => simp at he
  | b :: t =>
    simp only [isBandLevelIndexInRange, Bool.and_eq_false_iff, decide_eq_false_iff_not,
      not_le, not_lt]
    rcases hbad with h | h
    · left
      rcases List.mem_cons.mp he with rfl | hm
      · have := foldl_min_le_init t e.index; omega
      · have := foldl_min_le_mem t b.index e hm; omega
    · right
      rcases List.mem_cons.mp he with rfl | hm
      · have := init_le_foldl_max t e.index; omega
      · have := mem_le_foldl_max t b.index e hm; omega

/-- Entries of `tempLevel` that no request entry names keep their initial
(indeterminate) contents. -/
lemma tempLevelOf_not_mem (junk : Fin MAX_NUM_BANDS → Int)
    (l : List BandLevel) (i : Fin MAX_NUM_BANDS)
    (h : ∀ e ∈ l, e.index ≠ (i.val : Int)) : tempLevelOf junk l i = junk i := by
  induction l generalizing junk with
  | nil => rfl
  | cons b t ih =>
    have step : tempLevelOf junk (b :: t) i =
        tempLevelOf (fun j => if (j.val : Int) = b.index then b.levelMb else junk j) t i := rfl
    rw [step, ih _ fun e he => h e (by simp [he])]
    have hb : b.index ≠ (i.val : Int) := h b (by simp)
    exact if_neg fun hc => hb hc.symm

/-- Entries of `tempLevel` named by a request entry receive its level, for
requests with pairwise distinct indices. -/
lemma tempLevelOf_mem (junk : Fin MAX_NUM_BANDS → Int) (l : List BandLevel)
    (hnodup : (l.map BandLevel.index).Nodup) (e : BandLevel) (he : e ∈ l)
    (i : Fin MAX_NUM_BANDS) (hi : (i.val : Int) = e.index) :
    tempLevelOf junk l i = e.levelMb := by
  induction l generalizing junk with
  | nil => simp at he
  | cons b t ih =>
    simp only [List.map_cons, List.nodup_cons] at hnodup
    rcases List.mem_cons.mp he with rfl | hm
    · have hnot : ∀ x ∈ t, x.index ≠ (i.val : Int) := by
        intro x hx hc
        apply hnodup.1
        rw [← hi, ← hc]
        exact List.mem_map_of_mem _ hx
      have step : tempLevelOf junk (e :: t) i =
          tempLevelOf (fun j => if (j.val : Int) = e.index then e.levelMb else junk j) t i := rfl
      rw [step, tempLevelOf_not_mem _ _ _ hnot]
      exact if_pos hi
    · exact ih _ hnodup.2 hm

/-- Successful band update: everything the engine holds and the mirror are
rebuilt from `tempLevel`. -/
lemma updateControlParameter_success (tbl : LvmTables) (junk : Fin MAX_NUM_BANDS → Int)
    (st : BundleContext) (eng : Engine) (l : List BandLevel)
    (hrange : isBandLevelIndexInRange l = true)
    (hget : eng.getOk = true) (hset : eng.setOk = true) :
    updateControlParameter tbl junk st eng l =
      (.success, { st with mBandGaindB := tempLevelOf junk l },
        { eng with params :=
            { eng.params with bands := fun i =>
                ⟨tbl.presetFreq i, tbl.presetQ i, tempLevelOf junk l i⟩ } }) := by
  simp [updateControlParameter, hrange, LVM_GetControlParameters,
    LVM_SetControlParameters, hget, hset]

/-- Failed engine push during the band update: engine error, nothing
committed. -/
lemma updateControlParameter_engine_fail (tbl : LvmTables)
    (junk : Fin MAX_NUM_BANDS → Int) (st : BundleContext) (eng : Engine)
    (l : List BandLevel) (hrange : isBandLevelIndexInRange l = true)
    (hfail : eng.getOk = false ∨ eng.setOk = false) :
    updateControlParameter tbl junk st eng l = (.errorEffectLibError, st, eng) := by
  rcases hfail with h | h
  · simp [updateControlParameter, hrange, LVM_GetControlParameters, h]
  · cases hg : eng.getOk
    · simp [updateControlParameter, hrange, LVM_GetControlParameters, hg]
    · simp [updateControlParameter, hrange, LVM_GetControlParameters,
        LVM_SetControlParameters, hg, h]

/-! ## C8 -/

/-- C8: for every unsigned input `vol`, `VolToDb vol` is never less than
-96 (the engine silence floor is enforced by the final clamp). -/
theorem volToDb_clamped_at_minus96 : ∀ vol : Nat, -96 ≤ VolToDb vol := by
  intro vol
  simp only [VolToDb]
  split
  · omega
  · omega

/-! ## C4 -/

/-- C4 (amended): calling `enable` on an already enabled session and calling
`disable` on a session that is not enabled both fail with the
illegal-parameter error code (the source reuses `ERROR_ILLEGAL_PARAMETER`
for these state errors; no distinct illegal-state code is produced) and leave
the session state and the engine completely unchanged. -/
theorem enable_disable_wrong_state_rejected (tbl : LvmTables)
    (st : BundleContext) (eng : Engine) :
    (st.mEnabled = true → enable tbl st eng = (.errorIllegalParameter, st, eng)) ∧
    (st.mEnabled = false → disable tbl st eng = (.errorIllegalParameter, st, eng)) := by
  constructor
  · intro h
    simp [enable, h]
  · intro h
    simp [disable, h]

/-- C4 counterexample: on the concrete already-enabled session the source
returns the illegal-parameter code, which is not the illegal-state error the
claim names; `disable` on a fresh (not enabled) session likewise. -/
theorem enable_disable_wrong_state_code_counterexample :
    (enable sampleTables { freshEqContext with mEnabled := true } okEngine).1 =
      RetCode.errorIllegalParameter ∧
    (disable sampleTables freshEqContext okEngine).1 = RetCode.errorIllegalParameter ∧
    RetCode.errorIllegalParameter ≠ RetCode.errorIllegalState := by
  refine ⟨rfl, rfl, by decide⟩

/-- C4 witness: the amended theorem applied to the concrete enabled and
fresh sessions. -/
theorem enable_disable_wrong_state_rejected_witness :
    enable sampleTables { freshEqContext with mEnabled := true } okEngine =
      (.errorIllegalParameter, { freshEqContext with mEnabled := true }, okEngine) ∧
    disable sampleTables freshEqContext okEngine =
      (.errorIllegalParameter, freshEqContext, okEngine) :=
  ⟨(enable_disable_wrong_state_rejected sampleTables
      { freshEqContext with mEnabled := true } okEngine).1 rfl,
   (enable_disable_wrong_state_rejected sampleTables freshEqContext okEngine).2 rfl⟩

/-! ## C9 -/

/-- C9: if the engine rejects the parameter read or push during `enable`,
the call returns an engine-error result but the session is nevertheless left
marked enabled (the flag is set before the engine is touched and is not
rolled back), so a subsequent `enable` fails as already-enabled. -/
theorem enable_engine_failure_leaves_enabled (tbl : LvmTables)
    (st : BundleContext) (eng : Engine)
    (hen : st.mEnabled = false) (hfail : eng.getOk = false ∨ eng.setOk = false) :
    (enable tbl st eng).1 = .errorEffectLibError ∧
    (enable tbl st eng).2.1.mEnabled = true ∧
    (enable tbl (enable tbl st eng).2.1 (enable tbl st eng).2.2).1 =
      .errorIllegalParameter := by
  have heng : ∀ st2 : BundleContext,
      enableOperatingMode tbl st2 eng = (.errorEffectLibError, st2, eng) := by
    intro st2
    rcases hfail with h | h
    · simp [enableOperatingMode, LVM_GetControlParameters, h]
    · cases hg : eng.getOk
      · simp [enableOperatingMode, LVM_GetControlParameters, hg]
      · cases hst : st2.mType <;>
          simp [enableOperatingMode, LVM_GetControlParameters,
            LVM_SetControlParameters, hg, h, hst]
  rw [enable, if_neg (by simp [hen])]
  rw [heng _]
  exact ⟨rfl, rfl, rfl⟩

/-- C9 witness: the theorem applied to the concrete fresh session and an
engine whose parameter read fails. -/
theorem enable_engine_failure_leaves_enabled_witness :
    ((enable sampleTables freshEqContext { okEngine with getOk := false }).1 =
        .errorEffectLibError ∧
      (enable sampleTables freshEqContext { okEngine with getOk := false }).2.1.mEnabled =
        true ∧
      (enable sampleTables
          (enable sampleTables freshEqContext { okEngine with getOk := false }).2.1
          (enable sampleTables freshEqContext { okEngine with getOk := false }).2.2).1 =
        .errorIllegalParameter) :=
  enable_engine_failure_leaves_enabled sampleTables freshEqContext
    { okEngine with getOk := false } rfl (Or.inl rfl)

/-! ## C3 -/

/-- C3: for every mutating parameter operation (band levels, preset, stereo
volume), if the underlying engine parameter read or push fails, the operation
returns the engine-error result and the whole in-memory mirror (band gains,
preset marker, stored stereo volume) and the engine are left unchanged; the
mirror is committed only after a successful engine push. -/
theorem mutations_no_commit_on_engine_failure (tbl : LvmTables)
    (junk : Fin MAX_NUM_BANDS → Int) (st : BundleContext) (eng : Engine)
    (hfail : eng.getOk = false ∨ eng.setOk = false) :
    (∀ l : List BandLevel, l ≠ [] → l.length ≤ MAX_NUM_BANDS →
      (∀ e ∈ l, 0 ≤ e.index ∧ e.index < (MAX_NUM_BANDS : Int)) →
      setEqualizerBandLevels tbl junk st eng l = (.errorEffectLibError, st, eng)) ∧
    (∀ presetIdx : Nat, presetIdx < tbl.maxNumPresets →
      setEqualizerPreset tbl junk st eng presetIdx = (.errorEffectLibError, st, eng)) ∧
    (∀ left right : Nat,
      setVolumeStereo st eng left right = (.errorEffectLibError, st, eng)) := by
  refine ⟨?_, ?_, ?_⟩
  · intro l hne hlen hr
    have hrange := isBandLevelIndexInRange_true l hne hr
    have hupd := updateControlParameter_engine_fail tbl junk st eng l hrange hfail
    have h1 : ¬ (l.length > MAX_NUM_BANDS) := by omega
    have h2 : l.isEmpty = false := by
      cases l
      · exact absurd rfl hne
      · rfl
    simp [setEqualizerBandLevels, h1, h2, hupd]
  · intro p hp
    have hrange : isBandLevelIndexInRange
        ((List.finRange MAX_NUM_BANDS).map
          (fun i => (⟨(i.val : Int), tbl.softPresets p i⟩ : BandLevel))) = true := by
      apply isBandLevelIndexInRange_true
      · apply List.ne_nil_of_length_pos
        simp [MAX_NUM_BANDS]
      · intro e he
        simp only [List.mem_map] at he
        obtain ⟨i, _, rfl⟩ := he
        constructor
        · exact Int.ofNat_nonneg _
        · show ((i.val : Nat) : Int) < ((MAX_NUM_BANDS : Nat) : Int)
          exact_mod_cast i.isLt
    have hupd := updateControlParameter_engine_fail tbl junk st eng _ hrange hfail
    have hg : ¬ p ≥ tbl.maxNumPresets := by omega
    simp [setEqualizerPreset, hg, hupd]
  · intro a b
    rcases hfail with h | h
    · simp [setVolumeStereo, LVM_GetControlParameters, h]
    · cases hg : eng.getOk
      · simp [setVolumeStereo, LVM_GetControlParameters, hg]
      · simp [setVolumeStereo, LVM_GetControlParameters,
          LVM_SetControlParameters, hg, h]

/-- C3 witness: the theorem applied to the concrete fresh session with an
engine whose parameter push fails, on a one-entry band request, preset 0 and
a concrete stereo volume. -/
theorem mutations_no_commit_on_engine_failure_witness :
    setEqualizerBandLevels sampleTables (fun _ => 0) freshEqContext
        { okEngine with setOk := false } [⟨0, 100⟩] =
      (.errorEffectLibError, freshEqContext, { okEngine with setOk := false }) ∧
    setEqualizerPreset sampleTables (fun _ => 0) freshEqContext
        { okEngine with setOk := false } 0 =
      (.errorEffectLibError, freshEqContext, { okEngine with setOk := false }) ∧
    setVolumeStereo freshEqContext { okEngine with setOk := false } 3 4 =
      (.errorEffectLibError, freshEqContext, { okEngine with setOk := false }) := by
  have h := mutations_no_commit_on_engine_failure sampleTables (fun _ => 0)
    freshEqContext { okEngine with setOk := false } (Or.inr rfl)
  exact ⟨h.1 [⟨0, 100⟩] (by decide) (by decide) (by decide),
    h.2.1 0 (by decide), h.2.2 3 4⟩

/-! ## C10 -/

/-- C10: a successful band-level update whose index set covers only part of
the bands does not preserve the previous gains of the omitted bands: the
whole mirror and all engine band definitions are rebuilt from the temporary
array, whose entries at omitted indices keep their indeterminate initial
contents `junk` (whatever they are), rather than the previous gains. -/
theorem omitted_bands_receive_indeterminate_values (tbl : LvmTables)
    (junk : Fin MAX_NUM_BANDS → Int) (st : BundleContext) (eng : Engine)
    (l : List BandLevel) (hne : l ≠ []) (hlen : l.length ≤ MAX_NUM_BANDS)
    (hr : ∀ e ∈ l, 0 ≤ e.index ∧ e.index < (MAX_NUM_BANDS : Int))
    (hget : eng.getOk = true) (hset : eng.setOk = true)
    (i : Fin MAX_NUM_BANDS) (hnot : ∀ e ∈ l, e.index ≠ (i.val : Int)) :
    (setEqualizerBandLevels tbl junk st eng l).1 = .success ∧
    (setEqualizerBandLevels tbl junk st eng l).2.1.mBandGaindB i = junk i ∧
    ((setEqualizerBandLevels tbl junk st eng l).2.2.params.bands i).gain = junk i := by
  have hrange := isBandLevelIndexInRange_true l hne hr
  have hupd := updateControlParameter_success tbl junk st eng l hrange hget hset
  have h1 : ¬ (l.length > MAX_NUM_BANDS) := by omega
  have h2 : l.isEmpty = false := by
    cases l
    · exact absurd rfl hne
    · rfl
  simp [setEqualizerBandLevels, h1, h2, hupd, tempLevelOf_not_mem junk l i hnot]

/-- C10 witness: updating only band 0 from a session whose bands are all 0,
with indeterminate array contents 999, leaves band 1 holding 999 (not its
previous value 0). -/
theorem omitted_bands_receive_indeterminate_values_witness :
    (setEqualizerBandLevels sampleTables (fun _ => 999) freshEqContext okEngine
        [⟨0, 100⟩]).1 = .success ∧
    (setEqualizerBandLevels sampleTables (fun _ => 999) freshEqContext okEngine
        [⟨0, 100⟩]).2.1.mBandGaindB ⟨1, by decide⟩ = 999 ∧
    ((setEqualizerBandLevels sampleTables (fun _ => 999) freshEqContext okEngine
        [⟨0, 100⟩]).2.2.params.bands ⟨1, by decide⟩).gain = 999 :=
  omitted_bands_receive_indeterminate_values sampleTables (fun _ => 999)
    freshEqContext okEngine [⟨0, 100⟩] (by decide) (by decide) (by decide)
    rfl rfl ⟨1, by decide⟩ (by decide)

/-! ## C2 -/

/-- C2: for every band-level update with indices strictly inside the band
range, nonempty and no larger than the band count, and with pairwise distinct
indices, a successful `setEqualizerBandLevels` followed by
`getEqualizerBandLevels` returns exactly the updated values at the updated
indices; and every update containing an out-of-range index fails with the
illegal-parameter error, leaving the mirror and the engine unchanged.  (The
spec leaves updates with duplicate indices an open question, so the
round-trip half is stated for distinct indices.) -/
theorem bandLevels_roundtrip_and_range_check (tbl : LvmTables)
    (junk : Fin MAX_NUM_BANDS → Int) (st : BundleContext) (eng : Engine)
    (hget : eng.getOk = true) (hset : eng.setOk = true) :
    (∀ l : List BandLevel, l ≠ [] → l.length ≤ MAX_NUM_BANDS →
      (∀ e ∈ l, 0 ≤ e.index ∧ e.index < (MAX_NUM_BANDS : Int)) →
      (l.map BandLevel.index).Nodup →
      (setEqualizerBandLevels tbl junk st eng l).1 = .success ∧
      (∀ e ∈ l, BandLevel.mk e.index e.levelMb ∈
        getEqualizerBandLevels (setEqualizerBandLevels tbl junk st eng l).2.1)) ∧
    (∀ l : List BandLevel, (∃ e ∈ l, e.index < 0 ∨ (MAX_NUM_BANDS : Int) ≤ e.index) →
      setEqualizerBandLevels tbl junk st eng l = (.errorIllegalParameter, st, eng)) := by
  constructor
  · intro l hne hlen hr hnodup
    have hrange := isBandLevelIndexInRange_true l hne hr
    have hupd := updateControlParameter_success tbl junk st eng l hrange hget hset
    have h1 : ¬ (l.length > MAX_NUM_BANDS) := by omega
    have h2 : l.isEmpty = false := by
      cases l
      · exact absurd rfl hne
      · rfl
    constructor
    · simp [setEqualizerBandLevels, h1, h2, hupd]
    · intro e he
      have hidx := hr e he
      have hfin : e.index.toNat < MAX_NUM_BANDS := by omega
      have hiv : ((⟨e.index.toNat, hfin⟩ : Fin MAX_NUM_BANDS).val : Int) = e.index :=
        Int.toNat_of_nonneg hidx.1
      have hval := tempLevelOf_mem junk l hnodup e he ⟨e.index.toNat, hfin⟩ hiv
      simp only [setEqualizerBandLevels, h1, h2, hupd, gt_iff_lt, decide_eq_true_eq,
        Bool.or_eq_true, if_false, getEqualizerBandLevels]
      simp only [List.mem_map]
      refine ⟨⟨e.index.toNat, hfin⟩, List.mem_finRange _, ?_⟩
      simp_all
  · rintro l ⟨e, he, hbad⟩
    have hrange := isBandLevelIndexInRange_false l e he hbad
    by_cases hlen : l.length > MAX_NUM_BANDS
    · simp [setEqualizerBandLevels, hlen]
    · have h2 : l.isEmpty = false := by
        cases l
        · simp at he
        · rfl
      have hupd : updateControlParameter tbl junk st eng l =
          (.errorIllegalParameter, st, eng) := by
        simp [updateControlParameter, hrange]
      simp [setEqualizerBandLevels, hlen, h2, hupd]

/-- C2 witness: the round-trip on the concrete update `[(1, 150), (3, -200)]`
and the rejection of the concrete out-of-range update `[(1, 150), (7, 0)]`. -/
theorem bandLevels_roundtrip_and_range_check_witness :
    ((setEqualizerBandLevels sampleTables (fun _ => 0) freshEqContext okEngine
        [⟨1, 150⟩, ⟨3, -200⟩]).1 = .success ∧
      (∀ e ∈ [(⟨1, 150⟩ : BandLevel), ⟨3, -200⟩], BandLevel.mk e.index e.levelMb ∈
        getEqualizerBandLevels (setEqualizerBandLevels sampleTables (fun _ => 0)
          freshEqContext okEngine [⟨1, 150⟩, ⟨3, -200⟩]).2.1)) ∧
    setEqualizerBandLevels sampleTables (fun _ => 0) freshEqContext okEngine
        [⟨1, 150⟩, ⟨7, 0⟩] = (.errorIllegalParameter, freshEqContext, okEngine) := by
  have h := bandLevels_roundtrip_and_range_check sampleTables (fun _ => 0)
    freshEqContext okEngine rfl rfl
  exact ⟨h.1 [⟨1, 150⟩, ⟨3, -200⟩] (by decide) (by decide) (by decide) (by decide),
    h.2 [⟨1, 150⟩, ⟨7, 0⟩] ⟨⟨7, 0⟩, by decide, by decide⟩⟩

/-! ## Helper lemmas: limitLevel with a fully working engine -/

/-- A working engine makes `limitLevel` succeed; the context is unchanged
except that `mFirstVolume` is cleared, the engine keeps all its success
flags, and the no-smoothing volume call is made exactly when `mFirstVolume`
was set. -/
lemma limitLevel_ok (tbl : LvmTables) (st : BundleContext) (eng : Engine)
    (hget : eng.getOk = true) (hset : eng.setOk = true)
    (hvol : eng.volNoSmoothOk = true) :
    (limitLevel tbl st eng).1 = .success ∧
    (limitLevel tbl st eng).2.1 =
      (if st.mFirstVolume then { st with mFirstVolume := false } else st) ∧
    (limitLevel tbl st eng).2.2.getOk = true ∧
    (limitLevel tbl st eng).2.2.setOk = true ∧
    (limitLevel tbl st eng).2.2.procOk = eng.procOk ∧
    (limitLevel tbl st eng).2.2.volNoSmoothOk = true ∧
    (limitLevel tbl st eng).2.2.noSmoothingCalls =
      eng.noSmoothingCalls + (if st.mFirstVolume then 1 else 0) := by
  cases hfv : st.mFirstVolume <;>
    simp [limitLevel, LVM_GetControlParameters, LVM_SetControlParameters,
      LVM_SetVolumeNoSmoothing, hget, hset, hvol, hfv]

/-! ## C7 -/

/-- C7: across any session, the no-smoothing volume call happens exactly
once: starting from a state whose first-volume flag is set, any positive
number of (successful) `limitLevel` volume applications performs the
no-smoothing call exactly one time — on the first application — and leaves
the flag cleared, so every later application uses normal smoothing. -/
theorem noSmoothing_called_exactly_once (tbl : LvmTables) (st : BundleContext)
    (eng : Engine) (n : Nat) (hget : eng.getOk = true) (hset : eng.setOk = true)
    (hvol : eng.volNoSmoothOk = true) (hfv : st.mFirstVolume = true) (hn : 1 ≤ n) :
    (iterLimitLevel tbl n st eng).2.noSmoothingCalls = eng.noSmoothingCalls + 1 ∧
    (iterLimitLevel tbl n st eng).1.mFirstVolume = false := by
  have rest : ∀ m (st2 : BundleContext) (eng2 : Engine), eng2.getOk = true →
      eng2.setOk = true → eng2.volNoSmoothOk = true → st2.mFirstVolume = false →
      (iterLimitLevel tbl m st2 eng2).2.noSmoothingCalls = eng2.noSmoothingCalls ∧
      (iterLimitLevel tbl m st2 eng2).1.mFirstVolume = false := by
    intro m
    induction m with
    | zero => intro st2 eng2 _ _ _ h2; exact ⟨rfl, h2⟩
    | succ k ih =>
      intro st2 eng2 hg2 hs2 hv2 h2
      have hl := limitLevel_ok tbl st2 eng2 hg2 hs2 hv2
      rw [iterLimitLevel]
      have := ih (limitLevel tbl st2 eng2).2.1 (limitLevel tbl st2 eng2).2.2
        hl.2.2.1 hl.2.2.2.1 hl.2.2.2.2.2.1 (by rw [hl.2.1]; simp [h2])
      rw [this.1, hl.2.2.2.2.2.2]
      refine ⟨by simp [h2], this.2⟩
  obtain ⟨m, rfl⟩ : ∃ m, n = m + 1 := ⟨n - 1, by omega⟩
  have hl := limitLevel_ok tbl st eng hget hset hvol
  rw [iterLimitLevel]
  have := rest m (limitLevel tbl st eng).2.1 (limitLevel tbl st eng).2.2
    hl.2.2.1 hl.2.2.2.1 hl.2.2.2.2.2.1 (by rw [hl.2.1]; simp [hfv])
  rw [this.1, hl.2.2.2.2.2.2]
  refine ⟨by simp [hfv], this.2⟩

/-- C7 witness: three volume applications on the concrete fresh session make
exactly one no-smoothing call and leave the flag cleared. -/
theorem noSmoothing_called_exactly_once_witness :
    (iterLimitLevel sampleTables 3 freshEqContext okEngine).2.noSmoothingCalls =
      okEngine.noSmoothingCalls + 1 ∧
    (iterLimitLevel sampleTables 3 freshEqContext okEngine).1.mFirstVolume = false :=
  noSmoothing_called_exactly_once sampleTables freshEqContext okEngine 3
    rfl rfl rfl rfl (by omega)

/-! ## Helper lemmas: the level estimator at all-zero band gains -/

lemma foldl_fixed {α β : Type} (f : α → β → α) (l : List β) (a : α)
    (h : ∀ acc, ∀ x ∈ l, f acc x = acc) : l.foldl f a = a := by
  induction l generalizing a with
  | nil => rfl
  | cons b t ih =>
    rw [List.foldl_cons, h a b (by simp)]
    exact ih a fun acc x hx => h acc x (by simp [hx])

lemma energyContributionOf_zero (tbl : LvmTables) (gains : Fin MAX_NUM_BANDS → Int)
    (hg : ∀ i, gains i = 0) : energyContributionOf tbl gains = 0 := by
  apply foldl_fixed
  intro acc x _
  simp [hg x]

lemma crossEnergyOf_zero (tbl : LvmTables) (gains : Fin MAX_NUM_BANDS → Int)
    (hg : ∀ i, gains i = 0) : crossEnergyOf tbl gains = (0, 0) := by
  apply foldl_fixed
  intro acc x _
  simp [hg x.castSucc]

lemma intTrunc_almost_one : intTrunc ((99 : ℚ) / 100) = 0 := by
  rw [intTrunc, if_pos (by norm_num)]
  exact Int.floor_eq_iff.mpr (by norm_num)

/-- With all band gains at zero the whole energy estimate vanishes, so the
gain correction reduces to the headroom test on the saved level alone. -/
lemma computeGainCorrection_zero_gains (tbl : LvmTables) (eqEnabled : Bool)
    (gains : Fin MAX_NUM_BANDS → Int) (levelSaved : Int)
    (hg : ∀ i, gains i = 0) (hsq : tbl.sq 0 = 0) :
    computeGainCorrection tbl eqEnabled gains levelSaved =
      if 0 < levelSaved then levelSaved else 0 := by
  have hE := energyContributionOf_zero tbl gains hg
  have hX := crossEnergyOf_zero tbl gains hg
  have hneg : ¬ ((0 : ℚ) < 0 - 1) := by norm_num
  simp only [computeGainCorrection, hE, hX, ite_self, hneg, and_false, if_false,
    add_zero, zero_add, sub_zero, hsq, intTrunc_almost_one, zero_add]

/-! ## C6 -/

/-- C6 (amended): when all mirrored band gains are 0 and `limitLevel` runs
against a working engine, the computed gain correction is 0 and the
volume-control level pushed to the engine equals `mLevelSaved` exactly with
no clamping — under the precondition `-96 < mLevelSaved ≤ 0` (for
`0 < mLevelSaved` the headroom test fires instead and the pushed level is
pulled down to 0, which the counterexample below exhibits). -/
theorem limitLevel_zero_gains_pushes_savedLevel (tbl : LvmTables)
    (st : BundleContext) (eng : Engine) (hg : ∀ i, st.mBandGaindB i = 0)
    (hsq : tbl.sq 0 = 0) (hget : eng.getOk = true) (hset : eng.setOk = true)
    (hlo : -96 < st.mLevelSaved) (hhi : st.mLevelSaved ≤ 0) :
    (∀ eqEnabled : Bool,
      computeGainCorrection tbl eqEnabled st.mBandGaindB st.mLevelSaved = 0) ∧
    (limitLevel tbl st eng).2.2.params.vcEffectLevel = st.mLevelSaved := by
  have hzero : ∀ eqEnabled : Bool,
      computeGainCorrection tbl eqEnabled st.mBandGaindB st.mLevelSaved = 0 := by
    intro eqEnabled
    rw [computeGainCorrection_zero_gains tbl eqEnabled _ _ hg hsq]
    omega
  have hcl : ¬ (st.mLevelSaved < -96) := by omega
  refine ⟨hzero, ?_⟩
  cases hfv : st.mFirstVolume <;> cases hvs : eng.volNoSmoothOk <;>
    simp [limitLevel, LVM_GetControlParameters, LVM_SetControlParameters,
      LVM_SetVolumeNoSmoothing, hget, hset, hfv, hvs, hzero, sub_zero, hcl]

/-- C6 counterexample: with all band gains 0 and `mLevelSaved = 1`, which
satisfies the precondition `mLevelSaved > -96` of the claim as stated, the
gain correction is 1 (not 0) and the level pushed to the engine is 0 (not
`mLevelSaved`). -/
theorem limitLevel_zero_gains_counterexample :
    computeGainCorrection sampleTables true (fun _ => 0) 1 = 1 ∧
    (limitLevel sampleTables
        { freshEqContext with mLevelSaved := 1, mFirstVolume := false }
        { okEngine with params :=
            { okEngine.params with eqOn := true } }).2.2.params.vcEffectLevel = 0 ∧
    (-96 : Int) < 1 := by
  have h1 : computeGainCorrection sampleTables true (fun _ => 0) 1 = 1 := by
    rw [computeGainCorrection_zero_gains sampleTables true _ _ (fun _ => rfl) rfl]
    norm_num
  refine ⟨h1, ?_, by norm_num⟩
  have hga : okEngine.getOk = true := rfl
  have hsa : okEngine.setOk = true := rfl
  have hgb : freshEqContext.mBandGaindB = (fun _ => 0) := rfl
  simp [limitLevel, LVM_GetControlParameters, LVM_SetControlParameters,
    hga, hsa, hgb, h1]

/-- C6 witness: the amended theorem applied at the concrete session with all
band gains 0 and saved level -5. -/
theorem limitLevel_zero_gains_pushes_savedLevel_witness :
    (∀ eqEnabled : Bool,
      computeGainCorrection sampleTables eqEnabled
        ({ freshEqContext with mLevelSaved := -5 } : BundleContext).mBandGaindB
        ({ freshEqContext with mLevelSaved := -5 } : BundleContext).mLevelSaved = 0) ∧
    (limitLevel sampleTables { freshEqContext with mLevelSaved := -5 }
        okEngine).2.2.params.vcEffectLevel =
      ({ freshEqContext with mLevelSaved := -5 } : BundleContext).mLevelSaved :=
  limitLevel_zero_gains_pushes_savedLevel sampleTables
    { freshEqContext with mLevelSaved := -5 } okEngine (fun _ => rfl) rfl rfl rfl
    (by norm_num) (by norm_num)

/-! ## Helper lemmas: the leading-bit scan and the decibel approximation -/

/-- The top-bit test of the scan, for 32-bit values. -/
lemma msb_test (r : Nat) (h : r < 4294967296) :
    (r &&& 2147483648 ≠ 0) ↔ 2147483648 ≤ r := by
  have hand : r &&& 2147483648 = (r.testBit 31).toNat * 2147483648 := by
    have h2 := Nat.and_two_pow r 31
    norm_num at h2
    exact h2
  have htb : r.testBit 31 = decide (r / 2147483648 % 2 = 1) := by
    have h3 := Nat.testBit_to_div_mod (x := r) (i := 31)
    norm_num at h3
    exact h3
  have hiff : r / 2147483648 % 2 = 1 ↔ 2147483648 ≤ r := by omega
  rw [hand, htb]
  by_cases hc : r / 2147483648 % 2 = 1
  · simp [hc, hiff.mp hc]
  · simp [hc]
    omega

/-- One scan iteration on a value with a clear top bit doubles it. -/
lemma clzScan_step_low (fuel s r : Nat) (h : r < 2147483648) :
    clzScan (fuel + 1) s r = clzScan fuel (s + 1) (2 * r) := by
  have harg : (r <<< 1) % 4294967296 = 2 * r := by
    rw [Nat.shiftLeft_eq, pow_one]
    omega
  rw [clzScan, if_neg (show ¬ (r &&& 2147483648 ≠ 0) from
    fun hne => absurd ((msb_test r (by omega)).mp hne) (by omega)), harg]

/-- The scan stops on a value with the top bit set. -/
lemma clzScan_step_high (fuel s r : Nat) (hlo : 2147483648 ≤ r)
    (hhi : r < 4294967296) : clzScan (fuel + 1) s r = (s, r) := by
  rw [clzScan, if_pos ((msb_test r hhi).mpr hlo)]

lemma log2_le_31 (v : Nat) (h1 : 1 ≤ v) (h2 : v < 4294967296) :
    Nat.log2 v ≤ 31 := by
  have := (Nat.log2_lt (by omega : v ≠ 0)).mpr
    (show v < 2 ^ 32 by norm_num; omega)
  omega

lemma log2_ge_31 (v : Nat) (h : 2147483648 ≤ v) : 31 ≤ Nat.log2 v := by
  by_contra hc
  push_neg at hc
  have h1 := Nat.lt_log2_self (n := v)
  have h2 : 2 ^ (Nat.log2 v + 1) ≤ 2 ^ 31 := Nat.pow_le_pow_right (by norm_num) (by omega)
  have : (2 ^ 31 : Nat) = 2147483648 := by norm_num
  omega

lemma log2_double (r : Nat) (h : 1 ≤ r) : Nat.log2 (2 * r) = Nat.log2 r + 1 := by
  have h1 := Nat.log2_self_le (by omega : r ≠ 0)
  have h2 := Nat.lt_log2_self (n := r)
  have h3 : 2 * r ≠ 0 := by omega
  have l1 : Nat.log2 (2 * r) < Nat.log2 r + 2 := by
    rw [Nat.log2_lt h3]
    calc 2 * r < 2 * 2 ^ (Nat.log2 r + 1) := by omega
    _ = 2 ^ (Nat.log2 r + 2) := by ring
  have l2 : ¬ (Nat.log2 (2 * r) < Nat.log2 r + 1) := by
    rw [Nat.log2_lt h3]
    push_neg
    calc 2 ^ (Nat.log2 r + 1) = 2 * 2 ^ Nat.log2 r := by ring
    _ ≤ 2 * r := by omega
  omega

lemma log2_mono (v w : Nat) (h1 : 1 ≤ v) (hvw : v ≤ w) :
    Nat.log2 v ≤ Nat.log2 w := by
  by_contra hc
  push_neg at hc
  have h2 := Nat.log2_self_le (by omega : v ≠ 0)
  have h3 := Nat.lt_log2_self (n := w)
  have h4 : 2 ^ (Nat.log2 w + 1) ≤ 2 ^ Nat.log2 v :=
    Nat.pow_le_pow_right (by norm_num) (by omega)
  omega

/-- The normalised remainder `v * 2 ^ (31 - log2 v)` of a nonzero 32-bit
value lies in the top half of the 32-bit range. -/
lemma rem_bounds (v : Nat) (h1 : 1 ≤ v) (h2 : v < 4294967296) :
    2147483648 ≤ v * 2 ^ (31 - Nat.log2 v) ∧
    v * 2 ^ (31 - Nat.log2 v) < 4294967296 := by
  have hL := log2_le_31 v h1 h2
  have ha := Nat.log2_self_le (by omega : v ≠ 0)
  have hb := Nat.lt_log2_self (n := v)
  constructor
  · calc (2147483648 : Nat) = 2 ^ 31 := by norm_num
    _ = 2 ^ Nat.log2 v * 2 ^ (31 - Nat.log2 v) := by
        rw [← pow_add]
        congr 1
        omega
    _ ≤ v * 2 ^ (31 - Nat.log2 v) := Nat.mul_le_mul_right _ ha
  · calc v * 2 ^ (31 - Nat.log2 v) < 2 ^ (Nat.log2 v + 1) * 2 ^ (31 - Nat.log2 v) :=
        (Nat.mul_lt_mul_right (by positivity)).mpr hb
    _ = 2 ^ 32 := by
        rw [← pow_add]
        congr 1
        omega
    _ = 4294967296 := by norm_num

/-- Full evaluation of the scan on a nonzero 32-bit value: the shift count is
`31 - log2 v` and the remainder is the input normalised to the top bit. -/
lemma clzScan_spec : ∀ (fuel s v : Nat), 1 ≤ v → v < 4294967296 →
    31 - Nat.log2 v ≤ fuel →
    clzScan fuel s v = (s + (31 - Nat.log2 v), v * 2 ^ (31 - Nat.log2 v)) := by
  intro fuel
  induction fuel with
  | zero =>
    intro s v h1 h2 h3
    have hle := log2_le_31 v h1 h2
    have he : 31 - Nat.log2 v = 0 := by omega
    rw [clzScan, he]
    simp
  | succ k ih =>
    intro s v h1 h2 h3
    by_cases hge : 2147483648 ≤ v
    · have h31 : Nat.log2 v = 31 := le_antisymm (log2_le_31 v h1 h2) (log2_ge_31 v hge)
      rw [clzScan_step_high k s v hge h2, h31]
      simp
    · push_neg at hge
      have hlog : Nat.log2 v ≤ 30 := by
        have := (Nat.log2_lt (by omega : v ≠ 0)).mpr
          (show v < 2 ^ 31 by norm_num; omega)
        omega
      rw [clzScan_step_low k s v hge]
      have hd := log2_double v h1
      rw [ih (s + 1) (2 * v) (by omega) (by omega) (by rw [hd]; omega), hd]
      have e1 : 31 - (Nat.log2 v + 1) = 30 - Nat.log2 v := by omega
      have e2 : 31 - Nat.log2 v = 30 - Nat.log2 v + 1 := by omega
      rw [e1, e2, pow_succ]
      simp only [Prod.mk.injEq]
      refine ⟨by omega, by ring⟩

/-- Closed form of the decibel conversion on nonzero 32-bit inputs, in terms
of the shift count `31 - log2 v` and the seven interpolation bits `m`. -/
lemma toDB_char (v : Nat) (h1 : 1 ≤ v) (h2 : v < 4294967296) :
    LVC_ToDB_s32Tos16 v =
      -96 * ((31 - Nat.log2 v : Nat) : Int) +
        ((v * 2 ^ (31 - Nat.log2 v) / 16777216 - 128 : Nat) : Int) -
        (((v * 2 ^ (31 - Nat.log2 v) / 16777216 - 128) *
            (v * 2 ^ (31 - Nat.log2 v) / 16777216 - 128) / 512 : Nat) : Int) - 5 := by
  obtain ⟨hrl, hrh⟩ := rem_bounds v h1 h2
  have hscan := clzScan_spec 32 0 v h1 h2 (by omega)
  have hmask : v * 2 ^ (31 - Nat.log2 v) &&& 2147483647 =
      v * 2 ^ (31 - Nat.log2 v) % 2147483648 := by
    have h3 := Nat.and_pow_two_sub_one_eq_mod (v * 2 ^ (31 - Nat.log2 v)) 31
    norm_num at h3
    exact h3
  have hsm : (v * 2 ^ (31 - Nat.log2 v) &&& 2147483647) >>> 24 =
      v * 2 ^ (31 - Nat.log2 v) / 16777216 - 128 := by
    rw [hmask, Nat.shiftRight_eq_div_pow]
    norm_num
    omega
  simp only [LVC_ToDB_s32Tos16, Nat.mod_eq_of_lt h2, hscan, Nat.zero_add, hsm,
    Nat.shiftRight_eq_div_pow]

/-- Monotonicity of the quadratic interpolation term `m - m * m / 512` on the
byte range. -/
lemma gm_mono (a b : Nat) (hab : a ≤ b) (hb : b ≤ 255) :
    (a : Int) - ((a * a / 512 : Nat) : Int) ≤ (b : Int) - ((b * b / 512 : Nat) : Int) := by
  induction b with
  | zero =>
    have : a = 0 := by omega
    subst this
    exact le_refl _
  | succ k ih =>
    by_cases hak : a ≤ k
    · have h1 := ih hak (by omega)
      have h2 : (k + 1) * (k + 1) ≤ k * k + 512 := by
        have : (k + 1) * (k + 1) = k * k + 2 * k + 1 := by ring
        omega
      have h3 : (k + 1) * (k + 1) / 512 ≤ k * k / 512 + 1 := by
        calc (k + 1) * (k + 1) / 512 ≤ (k * k + 512) / 512 := Nat.div_le_div_right h2
        _ = k * k / 512 + 1 := Nat.add_div_right _ (by norm_num)
      omega
    · have : a = k + 1 := by omega
      subst this
      exact le_refl _

/-! ## C5 -/

/-- C5: over the whole input range [0, 2^32) the linear-to-decibel
conversion is monotonically non-decreasing; at input 0 the leading-bit scan
runs through all 32 iterations (final shift count 32, remainder 0) and the
function returns -3077 in Q11.4, the minimum of its output range (it is a
lower bound of every output on the input range). -/
theorem toDB_monotone_and_saturates_at_zero :
    (∀ v w : Nat, v ≤ w → w < 4294967296 →
      LVC_ToDB_s32Tos16 v ≤ LVC_ToDB_s32Tos16 w) ∧
    clzScan 32 0 0 = (32, 0) ∧
    LVC_ToDB_s32Tos16 0 = -3077 ∧
    (∀ v : Nat, v < 4294967296 → LVC_ToDB_s32Tos16 0 ≤ LVC_ToDB_s32Tos16 v) := by
  have hgm127 : ∀ m : Nat, m ≤ 127 →
      (m : Int) - ((m * m / 512 : Nat) : Int) ≤ 96 := by
    intro m hm
    have h1 := gm_mono m 127 hm (by norm_num)
    have h2 : ((127 : Nat) : Int) - (((127 * 127 / 512 : Nat)) : Int) = 96 := by decide
    omega
  have hgm0 : ∀ m : Nat, m ≤ 255 →
      (0 : Int) ≤ (m : Int) - ((m * m / 512 : Nat) : Int) := by
    intro m hm
    have h1 := gm_mono 0 m (Nat.zero_le m) hm
    omega
  have hmbound : ∀ v : Nat, 1 ≤ v → v < 4294967296 →
      v * 2 ^ (31 - Nat.log2 v) / 16777216 - 128 ≤ 127 := by
    intro v h1 h2
    obtain ⟨_, hrh⟩ := rem_bounds v h1 h2
    omega
  have hlow : ∀ v : Nat, 1 ≤ v → v < 4294967296 → -2981 ≤ LVC_ToDB_s32Tos16 v := by
    intro v h1 h2
    rw [toDB_char v h1 h2]
    have hL := log2_le_31 v h1 h2
    have h0 := hgm0 _ (le_trans (hmbound v h1 h2) (by norm_num))
    omega
  have hmono1 : ∀ v w : Nat, 1 ≤ v → v ≤ w → w < 4294967296 →
      LVC_ToDB_s32Tos16 v ≤ LVC_ToDB_s32Tos16 w := by
    intro v w h1 hvw hw2
    have hv2 : v < 4294967296 := by omega
    have hw1 : 1 ≤ w := by omega
    rw [toDB_char v h1 hv2, toDB_char w hw1 hw2]
    have hLvw := log2_mono v w h1 hvw
    have hLv := log2_le_31 v h1 hv2
    have hLw := log2_le_31 w hw1 hw2
    have hmv := hmbound v h1 hv2
    have hmw := hmbound w hw1 hw2
    by_cases hL : Nat.log2 v = Nat.log2 w
    · rw [hL]
      have hrem : v * 2 ^ (31 - Nat.log2 w) ≤ w * 2 ^ (31 - Nat.log2 w) :=
        Nat.mul_le_mul_right _ hvw
      have hm : v * 2 ^ (31 - Nat.log2 w) / 16777216 - 128 ≤
          w * 2 ^ (31 - Nat.log2 w) / 16777216 - 128 := by omega
      have hg := gm_mono _ _ hm (by omega)
      omega
    · have hlt : Nat.log2 v < Nat.log2 w := by omega
      have hup := hgm127 (v * 2 ^ (31 - Nat.log2 v) / 16777216 - 128) hmv
      have hdown := hgm0 (w * 2 ^ (31 - Nat.log2 w) / 16777216 - 128) (by omega)
      have hs : (31 - Nat.log2 w) + 1 ≤ 31 - Nat.log2 v := by omega
      omega
  have hz : LVC_ToDB_s32Tos16 0 = -3077 := by decide
  have hmonoAll : ∀ v w : Nat, v ≤ w → w < 4294967296 →
      LVC_ToDB_s32Tos16 v ≤ LVC_ToDB_s32Tos16 w := by
    intro v w hvw hw
    rcases Nat.eq_zero_or_pos v with rfl | hv
    · rcases Nat.eq_zero_or_pos w with rfl | hw1
      · exact le_refl _
      · have := hlow w hw1 hw
        omega
    · exact hmono1 v w hv hvw hw
  exact ⟨hmonoAll, by decide, hz,
    fun v hv => hmonoAll 0 v (Nat.zero_le v) hv⟩

/-- C5 witness: monotonicity applied at the concrete pair (5, 500) and the
saturated-low bound at the largest 32-bit input. -/
theorem toDB_monotone_and_saturates_at_zero_witness :
    LVC_ToDB_s32Tos16 5 ≤ LVC_ToDB_s32Tos16 500 ∧
    LVC_ToDB_s32Tos16 0 ≤ LVC_ToDB_s32Tos16 4294967295 :=
  ⟨toDB_monotone_and_saturates_at_zero.1 5 500 (by norm_num) (by norm_num),
    toDB_monotone_and_saturates_at_zero.2.2.2 4294967295 (by norm_num)⟩

/-! ## Helper lemmas: processing-cycle steps -/

/-- One `lvmProcess` call on an enabled single-effect session succeeds,
reports data available, invokes the engine, and returns the state exactly as
it was (the cycle masks and call counter wind back to zero). -/
lemma lvmProcess_enabled_step (n : Int) (st : BundleContext) (eng : Engine)
    (hproc : eng.procOk = true) (h : EnabledInv st) :
    (lvmProcess false false n st eng).status = .STATUS_OK ∧
    (lvmProcess false false n st eng).dataAvailable = true ∧
    (lvmProcess false false n st eng).engineInvoked = true ∧
    (lvmProcess false false n st eng).eng = eng ∧
    (lvmProcess false false n st eng).ctx = st := by
  obtain ⟨hty, hen, ⟨hfc, hfs⟩, hpc, hnc, hne⟩ := h
  have ht0 : Nat.testBit 0 0 = false := rfl
  have hor : (0 : Nat) ||| 1 <<< 0 = 1 := rfl
  have hcond : ¬ (st.mInputFrameCount ≠ st.mOutputFrameCount) := by simp [hfc]
  refine ⟨?_, ?_, ?_, ?_, ?_⟩ <;>
    simp [lvmProcess, hty, hen, hcond, hfs, hpc, hnc, hne, hproc, typeBit, ht0, hor]
  rw [← hpc, ← hnc, ← hty, ← hen, ← hne]

/-- One `lvmProcess` call on a disabled single-effect session with `c`
samples already submitted since disable: the call succeeds, still invokes the
engine, reports data available exactly while the inclusive cumulative sample
count stays below the drain budget, and maintains the drain invariant
(including giving back the enabled-effect count exactly once, on the call
that exhausts the budget). -/
lemma lvmProcess_drain_step (B c n : Int) (st : BundleContext) (eng : Engine)
    (hn : 0 < n) (hproc : eng.procOk = true) (h : DrainInv B c st) :
    (lvmProcess false false n st eng).status = .STATUS_OK ∧
    (lvmProcess false false n st eng).dataAvailable = decide (c + n < B) ∧
    (lvmProcess false false n st eng).engineInvoked = true ∧
    (lvmProcess false false n st eng).eng = eng ∧
    DrainInv B (c + n) (lvmProcess false false n st eng).ctx := by
  obtain ⟨hty, hen, ⟨hfc, hfs⟩, hpc, hnc, hcase⟩ := h
  have ht0 : Nat.testBit 0 0 = false := rfl
  have ht1 : Nat.testBit 1 0 = true := rfl
  have hor : (0 : Nat) ||| 1 <<< 0 = 1 := rfl
  have hcb1 : clearBit 1 0 = 0 := rfl
  have hcond : ¬ (st.mInputFrameCount ≠ st.mOutputFrameCount) := by simp [hfc]
  rcases hcase with ⟨hcB, hbud, hdr, hne⟩ | ⟨hcB, hbud, hdr, hne⟩
  · by_cases hcn : c + n < B
    · have h1 : (0 : Int) < B - c := by omega
      have h2 : ¬ (B - c - n ≤ 0) := by omega
      refine ⟨?_, ?_, ?_, ?_, ?_⟩ <;>
        simp [lvmProcess, hty, hen, hcond, hfs, hpc, hnc, hne, hdr, hbud, hproc,
          typeBit, ht0, ht1, hor, hcb1, h1, h2, hcn, DrainInv, FramesOk] <;>
        first
        | exact hfc
        | omega
    · have h1 : (0 : Int) < B - c := by omega
      have h2 : B - c - n ≤ 0 := by omega
      refine ⟨?_, ?_, ?_, ?_, ?_⟩ <;>
        simp [lvmProcess, hty, hen, hcond, hfs, hpc, hnc, hne, hdr, hbud, hproc,
          typeBit, ht0, ht1, hor, hcb1, h1, h2, hcn, DrainInv, FramesOk] <;>
        first
        | exact hfc
        | omega
  · have h1 : ¬ (0 < st.mSamplesToExitCountEq) := by omega
    have h2 : ¬ (c + n < B) := by omega
    refine ⟨?_, ?_, ?_, ?_, ?_⟩ <;>
      simp [lvmProcess, hty, hen, hcond, hfs, hpc, hnc, hne, hdr, hbud, hproc,
        typeBit, ht0, ht1, hor, hcb1, h1, h2, DrainInv, FramesOk] <;>
      first
      | exact hfc
      | omega

/-- A whole run of process calls on an enabled session: every call reports
data available and invokes the engine, and the state comes back unchanged. -/
lemma runProcs_enabled (ns : List Int) (st : BundleContext) (eng : Engine)
    (hproc : eng.procOk = true) (h : EnabledInv st) :
    runProcs ns st eng = (st, eng, List.replicate ns.length (true, true)) := by
  induction ns with
  | nil => rfl
  | cons n t ih =>
    obtain ⟨h1, h2, h3, h4, h5⟩ := lvmProcess_enabled_step n st eng hproc h
    simp only [runProcs, h2, h3, h4, h5, ih, List.length_cons, List.replicate_succ]

/-- A whole drain run: the engine state is untouched, the per-call
data-available flags are exactly the comparisons of the inclusive cumulative
sample counts against the remaining budget, the engine process entry is
invoked on every call, and the drain invariant holds at the final cumulative
count. -/
lemma runProcs_drain : ∀ (ns : List Int) (B c : Int) (st : BundleContext)
    (eng : Engine), DrainInv B c st → (∀ n ∈ ns, 0 < n) → eng.procOk = true →
    (runProcs ns st eng).2.1 = eng ∧
    (runProcs ns st eng).2.2 =
      (cumSums ns).map (fun s => (decide (c + s < B), true)) ∧
    DrainInv B (c + ns.sum) (runProcs ns st eng).1 := by
  intro ns
  induction ns with
  | nil =>
    intro B c st eng h hpos hproc
    refine ⟨rfl, rfl, ?_⟩
    simpa using h
  | cons n t ih =>
    intro B c st eng h hpos hproc
    obtain ⟨h1, h2, h3, h4, h5⟩ :=
      lvmProcess_drain_step B c n st eng (hpos n (by simp)) hproc h
    have hproc2 : (lvmProcess false false n st eng).eng.procOk = true := by
      rw [h4]
      exact hproc
    obtain ⟨i1, i2, i3⟩ := ih B (c + n) (lvmProcess false false n st eng).ctx
      (lvmProcess false false n st eng).eng h5
      (fun m hm => hpos m (by simp [hm])) hproc2
    refine ⟨?_, ?_, ?_⟩
    · simp only [runProcs]
      rw [i1, h4]
    · simp only [runProcs, cumSums, List.map_cons]
      rw [i2, h2, h3]
      simp [List.map_map, Function.comp, add_assoc]
    · simp only [runProcs, List.sum_cons]
      have := i3
      rw [show c + (n + t.sum) = c + n + t.sum by ring]
      exact this

/-- `enableOperatingMode` on a working engine reduces to `limitLevel` after
switching the equalizer operating mode on. -/
lemma enableOperatingMode_eq (tbl : LvmTables) (st : BundleContext)
    (eng : Engine) (hty : st.mType = .EQUALIZER) (hget : eng.getOk = true)
    (hset : eng.setOk = true) :
    enableOperatingMode tbl st eng =
      limitLevel tbl st { eng with params := { eng.params with eqOn := true } } := by
  simp [enableOperatingMode, LVM_GetControlParameters, LVM_SetControlParameters,
    hget, hset, hty]

/-- `disableOperatingMode` on a working engine reduces to `limitLevel` after
switching the equalizer operating mode off. -/
lemma disableOperatingMode_eq (tbl : LvmTables) (st : BundleContext)
    (eng : Engine) (hty : st.mType = .EQUALIZER) (hget : eng.getOk = true)
    (hset : eng.setOk = true) :
    disableOperatingMode tbl st eng =
      limitLevel tbl { st with mEnabled := false }
        { eng with params := { eng.params with eqOn := false } } := by
  simp [disableOperatingMode, LVM_GetControlParameters, LVM_SetControlParameters,
    hget, hset, hty]

/-- `enable` on a fresh single-effect EQUALIZER session with a fully working
engine: it succeeds, the enabled-effect count goes to one, the drain budget
is set to a tenth of a second of samples, the drain flag is clear, and the
engine keeps all its success flags. -/
lemma enable_fresh (tbl : LvmTables) (st : BundleContext) (eng : Engine)
    (h : FreshInv st) (hget : eng.getOk = true) (hset : eng.setOk = true)
    (hvol : eng.volNoSmoothOk = true) :
    (enable tbl st eng).1 = .success ∧
    EnabledInv (enable tbl st eng).2.1 ∧
    (enable tbl st eng).2.1.mSamplesPerSecond = st.mSamplesPerSecond ∧
    (enable tbl st eng).2.1.mSamplesToExitCountEq =
      ((st.mSamplesPerSecond / 10 : Nat) : Int) ∧
    (enable tbl st eng).2.1.mEffectInDrain = 0 ∧
    (enable tbl st eng).2.2.getOk = true ∧
    (enable tbl st eng).2.2.setOk = true ∧
    (enable tbl st eng).2.2.procOk = eng.procOk ∧
    (enable tbl st eng).2.2.volNoSmoothOk = true := by
  obtain ⟨hty, hen, ⟨hfc, hfs⟩, hpc, hnc, hcnt, hbud, hdr⟩ := h
  have hcb : clearBit 0 0 = 0 := rfl
  set stE : BundleContext :=
    { st with
      mEnabled := true,
      mNumberEffectsEnabled := st.mNumberEffectsEnabled + 1,
      mSamplesToExitCountEq := ((st.mSamplesPerSecond / 10 : Nat) : Int),
      mEffectInDrain := 0 } with hstE
  set engE : Engine := { eng with params := { eng.params with eqOn := true } }
    with hengE
  have hE : enable tbl st eng = limitLevel tbl stE engE := by
    have h1 : enable tbl st eng = enableOperatingMode tbl stE eng := by
      rw [hstE]
      simp [enable, hen, hty, hbud, hdr, typeBit, hcb]
    rw [h1, hengE]
    exact enableOperatingMode_eq tbl stE eng (by rw [hstE]; exact hty) hget hset
  obtain ⟨l1, l2, l3, l4, l5, l6, l7⟩ :=
    limitLevel_ok tbl stE engE (by rw [hengE]; exact hget)
      (by rw [hengE]; exact hset) (by rw [hengE]; exact hvol)
  rw [hE]
  refine ⟨l1, ?_, ?_, ?_, ?_, l3, l4, by rw [l5, hengE], l6⟩ <;>
    rw [l2] <;>
    cases hfv : st.mFirstVolume <;>
    simp [hstE, hfv, EnabledInv, FramesOk, hty, hfc, hfs, hpc, hnc, hcnt]

/-- `disable` on an enabled single-effect EQUALIZER session with no drain
pending and a positive remaining budget: it succeeds and establishes the
drain invariant at cumulative count zero, with the drain budget equal to the
remaining `mSamplesToExitCountEq` of the enabled session; the engine keeps
its process flag. -/
lemma disable_drain_start (tbl : LvmTables) (st : BundleContext) (eng : Engine)
    (h : EnabledInv st) (hdr : st.mEffectInDrain = 0)
    (hbudpos : 0 < st.mSamplesToExitCountEq) (hget : eng.getOk = true)
    (hset : eng.setOk = true) (hvol : eng.volNoSmoothOk = true) :
    (disable tbl st eng).1 = .success ∧
    DrainInv st.mSamplesToExitCountEq 0 (disable tbl st eng).2.1 ∧
    (disable tbl st eng).2.2.procOk = eng.procOk := by
  obtain ⟨hty, hen, ⟨hfc, hfs⟩, hpc, hnc, hne⟩ := h
  set stD : BundleContext :=
    { st with mEnabled := false, mEffectInDrain := 1 } with hstD
  set engD : Engine := { eng with params := { eng.params with eqOn := false } }
    with hengD
  have hD : disable tbl st eng = limitLevel tbl stD engD := by
    have h1 : disable tbl st eng = disableOperatingMode tbl stD eng := by
      rw [hstD]
      simp [disable, hen, hty, hdr, typeBit]
    have h2 : disableOperatingMode tbl stD eng =
        limitLevel tbl { stD with mEnabled := false } engD := by
      rw [hengD]
      exact disableOperatingMode_eq tbl stD eng (by rw [hstD]; exact hty) hget hset
    rw [h1, h2, hstD]
  obtain ⟨l1, l2, l3, l4, l5, l6, l7⟩ :=
    limitLevel_ok tbl stD engD (by rw [hengD]; exact hget)
      (by rw [hengD]; exact hset) (by rw [hengD]; exact hvol)
  rw [hD]
  refine ⟨l1, ?_, by rw [l5, hengD]⟩
  rw [l2]
  cases hfv : st.mFirstVolume <;>
    simp [hstD, hfv, DrainInv, FramesOk, hty, hfc, hfs, hpc, hnc] <;>
    exact ⟨hbudpos, hne⟩

/-! ## C1 -/

/-- C1 (amended): for an EQUALIZER session, `enable` sets the drain budget to
0.1 * samplesPerSecond and raises the enabled-effect count to one; process
calls made while enabled never consume the budget (every such call reports
data available and invokes the engine); after `disable`, a process call
reports data available exactly while the cumulative sample count submitted
SINCE DISABLE, including the current call, is below the budget — not the
count since enable, as the original claim stated — and once that cumulative
count reaches the budget, that call and all later ones mark data unavailable
(the engine itself is still invoked, with the equalizer operating mode
switched off); across the whole disable/drain sequence the enabled-effect
count is decremented exactly once, from one back to zero. -/
theorem eq_disable_drain_counts_since_disable (tbl : LvmTables)
    (st : BundleContext) (eng : Engine) (ms ns : List Int) (hfresh : FreshInv st)
    (hget : eng.getOk = true) (hset : eng.setOk = true)
    (hproc : eng.procOk = true) (hvol : eng.volNoSmoothOk = true)
    (hsps : 10 ≤ st.mSamplesPerSecond) (hns : ∀ n ∈ ns, 0 < n) :
    ∀ (B : Int) (e1 : RetCode × BundleContext × Engine)
      (r1 : BundleContext × Engine × List (Bool × Bool))
      (d1 : RetCode × BundleContext × Engine)
      (r2 : BundleContext × Engine × List (Bool × Bool)),
      B = ((st.mSamplesPerSecond / 10 : Nat) : Int) →
      e1 = enable tbl st eng →
      r1 = runProcs ms e1.2.1 e1.2.2 →
      d1 = disable tbl r1.1 r1.2.1 →
      r2 = runProcs ns d1.2.1 d1.2.2 →
      e1.1 = .success ∧
      e1.2.1.mNumberEffectsEnabled = 1 ∧
      e1.2.1.mSamplesToExitCountEq = B ∧
      r1.2.2 = List.replicate ms.length (true, true) ∧
      d1.1 = .success ∧
      r2.2.2 = (cumSums ns).map (fun s => (decide (s < B), true)) ∧
      r2.1.mNumberEffectsEnabled = (if B ≤ ns.sum then 0 else 1) := by
  intro B e1 r1 d1 r2 hB he hr1 hd hr2
  subst hB he hr1 hd hr2
  obtain ⟨a1, a2, a3, a4, a5, a6, a7, a8, a9⟩ :=
    enable_fresh tbl st eng hfresh hget hset hvol
  have hR1 := runProcs_enabled ms (enable tbl st eng).2.1 (enable tbl st eng).2.2
    (by rw [a8]; exact hproc) a2
  have hBpos : (0 : Int) < (enable tbl st eng).2.1.mSamplesToExitCountEq := by
    rw [a4]
    have h10 : 1 ≤ st.mSamplesPerSecond / 10 :=
      (Nat.le_div_iff_mul_le (by norm_num)).mpr (by omega)
    exact_mod_cast h10
  obtain ⟨d1s, dInv, dproc⟩ :=
    disable_drain_start tbl (enable tbl st eng).2.1 (enable tbl st eng).2.2
      a2 a5 hBpos a6 a7 a9
  rw [a4] at dInv
  obtain ⟨r2a, r2b, r2c⟩ :=
    runProcs_drain ns ((st.mSamplesPerSecond / 10 : Nat) : Int) 0
      (disable tbl (enable tbl st eng).2.1 (enable tbl st eng).2.2).2.1
      (disable tbl (enable tbl st eng).2.1 (enable tbl st eng).2.2).2.2
      dInv hns (by rw [dproc, a8]; exact hproc)
  simp only [hR1]
  refine ⟨a1, a2.2.2.2.2.2, a4, trivial, d1s, ?_, ?_⟩
  · rw [r2b]
    simp
  · obtain ⟨_, _, _, _, _, hcase⟩ := r2c
    rcases hcase with ⟨h1, _, _, h4⟩ | ⟨h1, _, _, h4⟩
    · rw [h4, if_neg (by omega)]
    · rw [h4, if_pos (by omega)]

/-- C1 witness: the amended theorem applied to the spec scenario: 44100 Hz
session, enable, 2000 samples while enabled, disable, then two 3000-sample
calls; the first drain call (cumulative 3000 < 4410) keeps data available,
the second (cumulative 6000 ≥ 4410) marks it unavailable, and the
enabled-effect count ends at zero. -/
theorem eq_disable_drain_counts_since_disable_witness :
    (enable sampleTables freshEqContext okEngine).1 = .success ∧
    (enable sampleTables freshEqContext okEngine).2.1.mNumberEffectsEnabled = 1 ∧
    (enable sampleTables freshEqContext okEngine).2.1.mSamplesToExitCountEq = 4410 ∧
    (runProcs [2000] (enable sampleTables freshEqContext okEngine).2.1
        (enable sampleTables freshEqContext okEngine).2.2).2.2 =
      List.replicate 1 (true, true) ∧
    (disable sampleTables
        (runProcs [2000] (enable sampleTables freshEqContext okEngine).2.1
          (enable sampleTables freshEqContext okEngine).2.2).1
        (runProcs [2000] (enable sampleTables freshEqContext okEngine).2.1
          (enable sampleTables freshEqContext okEngine).2.2).2.1).1 = .success ∧
    (runProcs [3000, 3000]
        (disable sampleTables
          (runProcs [2000] (enable sampleTables freshEqContext okEngine).2.1
            (enable sampleTables freshEqContext okEngine).2.2).1
          (runProcs [2000] (enable sampleTables freshEqContext okEngine).2.1
            (enable sampleTables freshEqContext okEngine).2.2).2.1).2.1
        (disable sampleTables
          (runProcs [2000] (enable sampleTables freshEqContext okEngine).2.1
            (enable sampleTables freshEqContext okEngine).2.2).1
          (runProcs [2000] (enable sampleTables freshEqContext okEngine).2.1
            (enable sampleTables freshEqContext okEngine).2.2).2.1).2.2).2.2 =
      (cumSums [3000, 3000]).map (fun s => (decide (s < 4410), true)) ∧
    (runProcs [3000, 3000]
        (disable sampleTables
          (runProcs [2000] (enable sampleTables freshEqContext okEngine).2.1
            (enable sampleTables freshEqContext okEngine).2.2).1
          (runProcs [2000] (enable sampleTables freshEqContext okEngine).2.1
            (enable sampleTables freshEqContext okEngine).2.2).2.1).2.1
        (disable sampleTables
          (runProcs [2000] (enable sampleTables freshEqContext okEngine).2.1
            (enable sampleTables freshEqContext okEngine).2.2).1
          (runProcs [2000] (enable sampleTables freshEqContext okEngine).2.1
            (enable sampleTables freshEqContext okEngine).2.2).2.1).2.2).1.mNumberEffectsEnabled =
      (if (4410 : Int) ≤ [(3000 : Int), 3000].sum then 0 else 1) :=
  eq_disable_drain_counts_since_disable sampleTables freshEqContext okEngine
    [2000] [3000, 3000] ⟨rfl, rfl, ⟨rfl, by decide⟩, rfl, rfl, rfl, by decide, rfl⟩
    rfl rfl rfl rfl (by decide)
    (by decide) 4410 _ _ _ _ (by decide) rfl rfl rfl rfl

/-- C1 counterexample: the claim as stated counts the drain budget against
samples processed since ENABLE.  In the concrete scenario (budget 4410 set at
enable, 2000 samples processed while enabled, then disable, then a
3000-sample call) the cumulative count since enable is 5000 ≥ 4410, so the
claim as stated predicts pass-through, yet the call still reports data
available and performs real engine processing. -/
theorem eq_disable_drain_counterexample :
    (enable sampleTables freshEqContext okEngine).2.1.mSamplesToExitCountEq = 4410 ∧
    (4410 : Int) ≤ 2000 + 3000 ∧
    (lvmProcess false false 3000
        (disable sampleTables
          (lvmProcess false false 2000 (enable sampleTables freshEqContext okEngine).2.1
            (enable sampleTables freshEqContext okEngine).2.2).ctx
          (lvmProcess false false 2000 (enable sampleTables freshEqContext okEngine).2.1
            (enable sampleTables freshEqContext okEngine).2.2).eng).2.1
        (disable sampleTables
          (lvmProcess false false 2000 (enable sampleTables freshEqContext okEngine).2.1
            (enable sampleTables freshEqContext okEngine).2.2).ctx
          (lvmProcess false false 2000 (enable sampleTables freshEqContext okEngine).2.1
            (enable sampleTables freshEqContext okEngine).2.2).eng).2.2).dataAvailable =
      true ∧
    (lvmProcess false false 3000
        (disable sampleTables
          (lvmProcess false false 2000 (enable sampleTables freshEqContext okEngine).2.1
            (enable sampleTables freshEqContext okEngine).2.2).ctx
          (lvmProcess false false 2000 (enable sampleTables freshEqContext okEngine).2.1
            (enable sampleTables freshEqContext okEngine).2.2).eng).2.1
        (disable sampleTables
          (lvmProcess false false 2000 (enable sampleTables freshEqContext okEngine).2.1
            (enable sampleTables freshEqContext okEngine).2.2).ctx
          (lvmProcess false false 2000 (enable sampleTables freshEqContext okEngine).2.1
            (enable sampleTables freshEqContext okEngine).2.2).eng).2.2).engineInvoked =
      true := by
  refine ⟨by decide, by decide, by decide, by decide⟩
